import Mathlib

/-!
Verification of the DGFEM acoustic solver time-integration core
(src/src/solver.cpp): the per-element update kernel `numStep`, the
`forwardEuler` and `rungeKutta` integrators, their source-injection and
snapshot-cadence logic.  The mesh, the configuration and the linear-algebra
helpers are external collaborators; they are embedded as abstract function
fields of a `Mesh` structure resp. modelled from the specification where
noted.  Machine doubles are embedded as elements of a linear ordered field
(instantiated at ℚ for concrete runs); the library sine and the constant
2*M_PI are parameters of the model.
-/

set_option maxHeartbeats 1000000
set_option linter.unusedSectionVars false

namespace Solver

/-- A point source: one row of `config.sources`.  Entry 0 (an equation
index) is never read by the solver; entries 1..8 are position, radius,
amplitude, frequency, phase and duration. -/
structure Source (α : Type) where
  eqIdx : α
  x : α
  y : α
  z : α
  radius : α
  amp : α
  freq : α
  phase : α
  duration : α

/-- Run configuration (external collaborator, immutable during a run). -/
structure Config (α : Type) where
  timeStart : α
  timeEnd : α
  timeStep : α
  timeRate : α
  v0 : α
  c0 : α
  rho0 : α
  numThreads : Nat
  saveFile : String
  sources : List (Source α)

/-- Mesh collaborator (out of scope of the core, interfaces only):
element counts, node coordinates, the per-element mass-matrix solve
`M⁻¹·b` used inside `eigen::linEq`, the per-element flux vector read by
`getElFlux` after `precomputeFlux(u[eq], Flux[eq], eq)`, the per-element
stiffness vector of `getElStiffVector`, and the per-stage flux refresh
`updateFlux`.  Vector-valued outputs are embedded as index functions. -/
structure Mesh (α : Type) where
  elNum : Nat
  elNumNodes : Nat
  numNodes : Nat
  coord : Nat → Fin 3 → α
  elMassInv : Nat → (Nat → α) → Nat → α
  elFluxVec : Fin 4 → (Nat → α) → (Nat → Fin 3 → α) → Nat → Nat → α
  elStiffVec : Nat → (Nat → Fin 3 → α) → (Nat → α) → Nat → α
  updFlux : (Fin 4 → Nat → α) → α → α → α → Fin 4 → Nat → Fin 3 → α

variable {α : Type} [LinearOrderedField α]

/-- Node sets of the source regions (solver.cpp lines 86-99 and 197-210):
node `n` is collected for a source iff the squared Euclidean distance from
its coordinates to the source center is strictly below the squared
radius. -/
def srcIndices (m : Mesh α) (s : Source α) : List Nat :=
  (List.range m.numNodes).filter fun n =>
    decide ((m.coord n 0 - s.x) ^ 2 + (m.coord n 1 - s.y) ^ 2 +
      (m.coord n 2 - s.z) ^ 2 < s.radius ^ 2)

/-- One source's injection (lines 139-147 resp. 248-256): while
`t < duration`, the pressure entry at every node of the source's index set
is overwritten with `amp * sin(2π·freq·t + phase)`; `sine` and `twoPi`
stand for the library sine and the constant `2*M_PI`. -/
def injectOne (m : Mesh α) (sine : α → α) (twoPi : α) (t : α)
    (u : Fin 4 → Nat → α) (s : Source α) : Fin 4 → Nat → α :=
  if t < s.duration then
    fun eq i =>
      if eq = 0 ∧ i ∈ srcIndices m s then
        s.amp * sine (twoPi * s.freq * t + s.phase)
      else u eq i
  else u

/-- The full source-update stage: the sources are processed in
configuration order, each overwriting its own node set. -/
def injectPhase (m : Mesh α) (sine : α → α) (twoPi : α)
    (srcs : List (Source α)) (t : α) (u : Fin 4 → Nat → α) :
    Fin 4 → Nat → α :=
  srcs.foldl (injectOne m sine twoPi t) u

/-- Overwrite the contiguous block `[start, start+len)` of a flattened
nodal vector with a fresh block (the write of `eigen::linEq` into
`&u[eq][el*elNumNodes]`). -/
def writeBlock (f : Nat → α) (start len : Nat) (blk : Nat → α) : Nat → α :=
  fun i => if start ≤ i ∧ i < start + len then blk (i - start) else f i

/-- Modelled from the spec: `eigen::minus` is not under src; following
§4.1 it is the element-wise subtraction `elStiffvector -= elFlux`, so the
residual of element `el` is its stiffness vector minus its flux vector. -/
def elResid (m : Mesh α) (eq : Fin 4) (FluxEq : Nat → Fin 3 → α)
    (uEq : Nat → α) (el : Nat) : Nat → α :=
  fun j => m.elStiffVec el FluxEq uEq j - m.elFluxVec eq uEq FluxEq el j

/-- Modelled from the spec: `eigen::linEq` is not under src; following the
source doc comment of `numStep` (`u[t+1] = dt*M^-1*(S[u[t]]-F[u[t]]) +
beta*u[t]`) and §4.1, the new block of element `el` is `dt` times the
mass-matrix inverse applied to the residual, plus `beta` times the old
block. -/
def elNewBlock (m : Mesh α) (dt beta : α) (eq : Fin 4)
    (FluxEq : Nat → Fin 3 → α) (uEq : Nat → α) (el : Nat) : Nat → α :=
  fun n => dt * m.elMassInv el (elResid m eq FluxEq uEq el) n +
    beta * uEq (el * m.elNumNodes + n)

/-- The element loop of `numStep` for one equation (lines 42-49): every
element's block is replaced by its new block; all element computations
read the pre-step solution, which is exactly the data-parallel semantics
of the loop (disjoint block writes, shared reads of the pre-step data). -/
def numStepEq (m : Mesh α) (dt beta : α) (eq : Fin 4)
    (FluxEq : Nat → Fin 3 → α) (uEq : Nat → α) : Nat → α :=
  (List.range m.elNum).foldl
    (fun acc el => writeBlock acc (el * m.elNumNodes) m.elNumNodes
      (elNewBlock m dt beta eq FluxEq uEq el)) uEq

/-- `numStep` (lines 35-52): for each of the 4 equations, precompute the
per-node flux data and update every element's block in place. -/
def numStep (m : Mesh α) (cfg : Config α) (u : Fin 4 → Nat → α)
    (Flux : Fin 4 → Nat → Fin 3 → α) (beta : α) : Fin 4 → Nat → α :=
  fun eq => numStepEq m cfg.timeStep beta eq (Flux eq) (u eq)

/-- Modelled from the spec: `eigen::plusTimes` is not under src; following
§4.3 (`set k2 = k1 * 0.5 pointwise`, `k3 = k2 * 0.5`, `k4 = k3 * 1`) it
assigns the scaled source vector to the first `nN` entries of the
destination. -/
def plusTimes (dst src : Nat → α) (c : α) (nN : Nat) : Nat → α :=
  fun i => if i < nN then src i * c else dst i

/-- The per-equation loop around `eigen::plusTimes` (lines 265-266 etc.). -/
def plusTimes4 (nN : Nat) (dst src : Fin 4 → Nat → α) (c : α) :
    Fin 4 → Nat → α :=
  fun eq => plusTimes (dst eq) (src eq) c nN

/-- One emitted snapshot: the step index and simulated time it was tagged
with, and the element-major repacking of the solution handed to the
output sink (lines 115-127 resp. 226-238). -/
structure Snap (α : Type) where
  stepIdx : Nat
  time : α
  g_p : Nat → Nat → α
  g_rho : Nat → Nat → α
  g_v : Nat → Nat → α

/-- Pack the current solution for the output sink: `g_p[el][n] = u[0][el*elNumNodes+n]`,
`g_rho = g_p / c0²`, `g_v[el][3n+c] = u[c+1][el*elNumNodes+n]`. -/
def mkSnap (m : Mesh α) (cfg : Config α) (step : Nat) (t : α)
    (u : Fin 4 → Nat → α) : Snap α :=
  { stepIdx := step
    time := t
    g_p := fun el n => u 0 (el * m.elNumNodes + n)
    g_rho := fun el n => u 0 (el * m.elNumNodes + n) / (cfg.c0 * cfg.c0)
    g_v := fun el j => u ⟨j % 3 + 1, by omega⟩ (el * m.elNumNodes + j / 3) }

/-- The loop state of either integrator: the solution, the loop variables
`t`, `step` and `tDisplay`, and the list of snapshots emitted so far. -/
structure LoopState (α : Type) where
  u : Fin 4 → Nat → α
  t : α
  stepIdx : Nat
  tDisplay : α
  snaps : List (Snap α)

/-- The snapshot check (lines 111-112 resp. 222-223): fires when
`tDisplay >= timeRate || step == 0`; on fire the display accumulator is
reset to zero and a snapshot of the current solution is emitted. -/
def snapPhase (m : Mesh α) (cfg : Config α) (s : LoopState α) : LoopState α :=
  if cfg.timeRate ≤ s.tDisplay ∨ s.stepIdx = 0 then
    { s with tDisplay := 0,
             snaps := s.snaps ++ [mkSnap m cfg s.stepIdx s.t s.u] }
  else s

/-- The for-update clause of the time loop: `t += timeStep,
tDisplay += timeStep, ++step`. -/
def advance (cfg : Config α) (s : LoopState α) : LoopState α :=
  { s with t := s.t + cfg.timeStep,
           tDisplay := s.tDisplay + cfg.timeStep,
           stepIdx := s.stepIdx + 1 }

/-- One `forwardEuler` loop iteration (lines 105-155): snapshot check,
source injection, flux refresh, one `numStep` with `beta = 1`, advance. -/
def eulerBody (m : Mesh α) (cfg : Config α) (sine : α → α) (twoPi : α)
    (s : LoopState α) : LoopState α :=
  let s1 := snapPhase m cfg s
  let u1 := injectPhase m sine twoPi cfg.sources s1.t s1.u
  let u2 := numStep m cfg u1 (m.updFlux u1 cfg.v0 cfg.c0 cfg.rho0) 1
  advance cfg { s1 with u := u2 }

/-- The state at loop entry: `t = timeStart, step = 0, tDisplay = 0`. -/
def initState (cfg : Config α) (u0 : Fin 4 → Nat → α) : LoopState α :=
  { u := u0, t := cfg.timeStart, stepIdx := 0, tDisplay := 0, snaps := [] }

/-- The state after `k` iterations of the `forwardEuler` loop. -/
def eulerIter (m : Mesh α) (cfg : Config α) (sine : α → α) (twoPi : α)
    (u0 : Fin 4 → Nat → α) (k : Nat) : LoopState α :=
  (eulerBody m cfg sine twoPi)^[k] (initState cfg u0)

/-- Stage 1 of the Runge-Kutta update (lines 263-264): refresh the flux
from the injected solution and apply `numStep` with `beta = 0`. -/
def rkK1 (m : Mesh α) (cfg : Config α) (u1 : Fin 4 → Nat → α) :
    Fin 4 → Nat → α :=
  numStep m cfg u1 (m.updFlux u1 cfg.v0 cfg.c0 cfg.rho0) 0

/-- The base of stage 2 (lines 265-266): `k2` (a copy of the injected
solution) overwritten by `plusTimes` with `k1 * 0.5`. -/
def rkK2base (m : Mesh α) (cfg : Config α) (u1 : Fin 4 → Nat → α) :
    Fin 4 → Nat → α :=
  plusTimes4 m.numNodes u1 (rkK1 m cfg u1) (1 / 2)

/-- Stage 2 (lines 268-269). -/
def rkK2 (m : Mesh α) (cfg : Config α) (u1 : Fin 4 → Nat → α) :
    Fin 4 → Nat → α :=
  numStep m cfg (rkK2base m cfg u1)
    (m.updFlux (rkK2base m cfg u1) cfg.v0 cfg.c0 cfg.rho0) 0

/-- The base of stage 3 (lines 270-271): `k3 = k2 * 0.5`. -/
def rkK3base (m : Mesh α) (cfg : Config α) (u1 : Fin 4 → Nat → α) :
    Fin 4 → Nat → α :=
  plusTimes4 m.numNodes u1 (rkK2 m cfg u1) (1 / 2)

/-- Stage 3 (lines 273-274). -/
def rkK3 (m : Mesh α) (cfg : Config α) (u1 : Fin 4 → Nat → α) :
    Fin 4 → Nat → α :=
  numStep m cfg (rkK3base m cfg u1)
    (m.updFlux (rkK3base m cfg u1) cfg.v0 cfg.c0 cfg.rho0) 0

/-- The base of stage 4 (lines 275-276): `k4 = k3 * 1`. -/
def rkK4base (m : Mesh α) (cfg : Config α) (u1 : Fin 4 → Nat → α) :
    Fin 4 → Nat → α :=
  plusTimes4 m.numNodes u1 (rkK3 m cfg u1) 1

/-- Stage 4 (lines 278-279). -/
def rkK4 (m : Mesh α) (cfg : Config α) (u1 : Fin 4 → Nat → α) :
    Fin 4 → Nat → α :=
  numStep m cfg (rkK4base m cfg u1)
    (m.updFlux (rkK4base m cfg u1) cfg.v0 cfg.c0 cfg.rho0) 0

/-- The Runge-Kutta combination loop (lines 281-285):
`u[eq][i] += (k1 + 2*k2 + 2*k3 + k4)/6` for every `i < numNodes`. -/
def rkCombine (nN : Nat) (base k1 k2 k3 k4 : Fin 4 → Nat → α) :
    Fin 4 → Nat → α :=
  fun eq i =>
    if i < nN then
      base eq i + (k1 eq i + 2 * k2 eq i + 2 * k3 eq i + k4 eq i) / 6
    else base eq i

/-- One `rungeKutta` loop iteration (lines 216-286). -/
def rkBody (m : Mesh α) (cfg : Config α) (sine : α → α) (twoPi : α)
    (s : LoopState α) : LoopState α :=
  let s1 := snapPhase m cfg s
  let u1 := injectPhase m sine twoPi cfg.sources s1.t s1.u
  let u2 := rkCombine m.numNodes u1 (rkK1 m cfg u1) (rkK2 m cfg u1)
    (rkK3 m cfg u1) (rkK4 m cfg u1)
  advance cfg { s1 with u := u2 }

/-- The state after `k` iterations of the `rungeKutta` loop. -/
def rkIter (m : Mesh α) (cfg : Config α) (sine : α → α) (twoPi : α)
    (u0 : Fin 4 → Nat → α) (k : Nat) : LoopState α :=
  (rkBody m cfg sine twoPi)^[k] (initState cfg u0)

/-- A concrete one-element, one-node mesh over ℚ with identity mass-matrix
solve and zero stiffness and flux, for concrete runs. -/
def mesh1 : Mesh ℚ :=
  { elNum := 1
    elNumNodes := 1
    numNodes := 1
    coord := fun _ _ => 0
    elMassInv := fun _ f n => f n
    elFluxVec := fun _ _ _ _ _ => 0
    elStiffVec := fun _ _ _ _ => 0
    updFlux := fun _ _ _ _ _ _ _ => 0 }

/-- A variant of `mesh1` with constant stiffness 3 and flux 1. -/
def mesh2 : Mesh ℚ :=
  { mesh1 with
    elStiffVec := fun _ _ _ _ => 3
    elFluxVec := fun _ _ _ _ _ => 1 }

/-- A concrete source centered at the origin with radius 1, amplitude 1,
frequency 1, phase 0, duration 100. -/
def src1 : Source ℚ :=
  { eqIdx := 0, x := 0, y := 0, z := 0, radius := 1, amp := 1, freq := 1,
    phase := 0, duration := 100 }

/-- A second concrete source like `src1` but with amplitude 2. -/
def src2 : Source ℚ := { src1 with amp := 2 }

/-- A concrete source whose center is at distance exactly its radius from
the origin node. -/
def srcB : Source ℚ := { src1 with x := 1 }

/-- A concrete configuration over ℚ: time step 1/4, snapshot every step. -/
def cfg1 : Config ℚ :=
  { timeStart := 0, timeEnd := 10, timeStep := 1 / 4, timeRate := 0,
    v0 := 1, c0 := 1, rho0 := 1, numThreads := 1, saveFile := "out.msh",
    sources := [src1] }

/-- `cfg1` without sources. -/
def cfg0 : Config ℚ := { cfg1 with sources := [] }

/-- `cfg1` with time step 2 (for the kernel witness). -/
def cfgC1 : Config ℚ := { cfg1 with timeStep := 2 }

/-- A configuration with time step 1 and snapshot rate 2 (every 2 steps). -/
def cfgC4 : Config ℚ :=
  { cfg1 with timeStep := 1, timeRate := 2, sources := [] }

/-- A configuration with time step 1/3 over [0, 1] (4 loop iterations). -/
def cfgC10 : Config ℚ :=
  { cfg1 with timeStep := 1 / 3, timeEnd := 1, sources := [] }

/-- A constant concrete solution vector. -/
def uC1 : Fin 4 → Nat → ℚ := fun _ _ => 5

/-- A zero concrete flux tensor. -/
def flC1 : Fin 4 → Nat → Fin 3 → ℚ := fun _ _ _ => 0

/-- A junk snapshot used as `getD` fallback. -/
def snapJunk : Snap ℚ := mkSnap mesh1 cfg1 0 0 fun _ _ => 0

/-- Closed form of the single-source scenario of §8: everything is zero
except the pressure at the source nodes, which after `k+1` iterations
holds the value injected at the iteration-`k` time. -/
def uPat (m : Mesh α) (cfg : Config α) (sine : α → α) (twoPi : α)
    (s : Source α) : Nat → Fin 4 → Nat → α
  | 0 => fun _ _ => 0
  | k + 1 => fun eq i =>
      if eq = 0 ∧ i ∈ srcIndices m s then
        sine (twoPi * (cfg.timeStart + (k : α) * cfg.timeStep))
      else 0

theorem foldl_writeBlock_apply (N : Nat) (blk : Nat → Nat → α) (g : Nat → α) :
    ∀ r i : Nat,
      ((List.range r).foldl
        (fun acc el => writeBlock acc (el * N) N (blk el)) g) i =
        if i < r * N then blk (i / N) (i % N) else g i := by
  intro r
  induction r with
  | zero => intro i; simp
  | succ r ih =>
    intro i
    rw [List.range_succ, List.foldl_append, List.foldl_cons, List.foldl_nil]
    show writeBlock _ (r * N) N (blk r) i = _
    have hrN : (r + 1) * N = r * N + N := by ring
    rw [writeBlock]
    by_cases h1 : r * N ≤ i ∧ i < r * N + N
    · have hN : 0 < N := by omega
      have hdiv : i / N = r := Nat.div_eq_of_lt_le h1.1 (by omega)
      have hmod : i % N = i - r * N := by
        have hm := Nat.div_add_mod i N
        rw [hdiv, Nat.mul_comm] at hm
        omega
      rw [if_pos h1, if_pos (by omega), hdiv, hmod]
    · rw [if_neg h1, ih i]
      by_cases h2 : i < r * N
      · rw [if_pos h2, if_pos (by omega)]
      · rw [if_neg h2, if_neg (by omega)]

theorem numStepEq_block (m : Mesh α) (dt beta : α) (eq : Fin 4)
    (F : Nat → Fin 3 → α) (uEq : Nat → α) (el n : Nat)
    (hel : el < m.elNum) (hn : n < m.elNumNodes) :
    numStepEq m dt beta eq F uEq (el * m.elNumNodes + n) =
      elNewBlock m dt beta eq F uEq el n := by
  rw [numStepEq, foldl_writeBlock_apply]
  have hmul : (el + 1) * m.elNumNodes ≤ m.elNum * m.elNumNodes :=
    Nat.mul_le_mul_right _ hel
  have hone : (el + 1) * m.elNumNodes = el * m.elNumNodes + m.elNumNodes := by
    ring
  have hdiv : (el * m.elNumNodes + n) / m.elNumNodes = el :=
    Nat.div_eq_of_lt_le (Nat.le_add_right _ _) (by omega)
  have hmod : (el * m.elNumNodes + n) % m.elNumNodes = n := by
    rw [Nat.mul_comm, Nat.mul_add_mod, Nat.mod_eq_of_lt hn]
  rw [if_pos (by omega), hdiv, hmod]

theorem numStepEq_frame (m : Mesh α) (dt beta : α) (eq : Fin 4)
    (F : Nat → Fin 3 → α) (uEq : Nat → α) {i : Nat}
    (hi : m.elNum * m.elNumNodes ≤ i) :
    numStepEq m dt beta eq F uEq i = uEq i := by
  rw [numStepEq, foldl_writeBlock_apply, if_neg (by omega)]

theorem numStep_apply (m : Mesh α) (cfg : Config α) (u : Fin 4 → Nat → α)
    (F : Fin 4 → Nat → Fin 3 → α) (beta : α) (eq : Fin 4) (i : Nat) :
    numStep m cfg u F beta eq i =
      if i < m.elNum * m.elNumNodes then
        elNewBlock m cfg.timeStep beta eq (F eq) (u eq)
          (i / m.elNumNodes) (i % m.elNumNodes)
      else u eq i := by
  show numStepEq m cfg.timeStep beta eq (F eq) (u eq) i = _
  rw [numStepEq, foldl_writeBlock_apply]

theorem numStep_zero_resid (m : Mesh α) (cfg : Config α)
    (u : Fin 4 → Nat → α) (F : Fin 4 → Nat → Fin 3 → α) (beta : α)
    (hS : ∀ el Fq g j, m.elStiffVec el Fq g j = 0)
    (hF : ∀ (eq : Fin 4) g Fq el j, m.elFluxVec eq g Fq el j = 0)
    (hM : ∀ el (f : Nat → α) j, (∀ i, f i = 0) → m.elMassInv el f j = 0)
    (eq : Fin 4) (i : Nat) :
    numStep m cfg u F beta eq i =
      if i < m.elNum * m.elNumNodes then beta * u eq i else u eq i := by
  rw [numStep_apply]
  by_cases h : i < m.elNum * m.elNumNodes
  · have hN : 0 < m.elNumNodes := by
      rcases Nat.eq_zero_or_pos m.elNumNodes with h0 | h0
      · rw [h0, Nat.mul_zero] at h; omega
      · exact h0
    have hresid : ∀ j,
        elResid m eq (F eq) (u eq) (i / m.elNumNodes) j = 0 := by
      intro j; rw [elResid, hS, hF, sub_zero]
    rw [if_pos h, if_pos h, elNewBlock, hM _ _ _ hresid, mul_zero, zero_add]
    congr 2
    exact Nat.div_add_mod' i m.elNumNodes
  · rw [if_neg h, if_neg h]

theorem numStep_zero (m : Mesh α) (cfg : Config α) (u : Fin 4 → Nat → α)
    (F : Fin 4 → Nat → Fin 3 → α) (beta : α)
    (hS : ∀ el Fq g j, m.elStiffVec el Fq g j = 0)
    (hF : ∀ (eq : Fin 4) g Fq el j, m.elFluxVec eq g Fq el j = 0)
    (hM : ∀ el (f : Nat → α) j, (∀ i, f i = 0) → m.elMassInv el f j = 0)
    (hu : ∀ eq i, u eq i = 0) (eq : Fin 4) (i : Nat) :
    numStep m cfg u F beta eq i = 0 := by
  rw [numStep_zero_resid m cfg u F beta hS hF hM]
  split <;> simp [hu]

theorem snapPhase_u (m : Mesh α) (cfg : Config α) (s : LoopState α) :
    (snapPhase m cfg s).u = s.u := by
  rw [snapPhase]; split <;> rfl

theorem snapPhase_t (m : Mesh α) (cfg : Config α) (s : LoopState α) :
    (snapPhase m cfg s).t = s.t := by
  rw [snapPhase]; split <;> rfl

theorem snapPhase_stepIdx (m : Mesh α) (cfg : Config α) (s : LoopState α) :
    (snapPhase m cfg s).stepIdx = s.stepIdx := by
  rw [snapPhase]; split <;> rfl

theorem snapPhase_tDisplay (m : Mesh α) (cfg : Config α) (s : LoopState α) :
    (snapPhase m cfg s).tDisplay =
      if cfg.timeRate ≤ s.tDisplay ∨ s.stepIdx = 0 then 0 else s.tDisplay := by
  rw [snapPhase]; split <;> rfl

theorem snapPhase_snaps (m : Mesh α) (cfg : Config α) (s : LoopState α) :
    (snapPhase m cfg s).snaps =
      if cfg.timeRate ≤ s.tDisplay ∨ s.stepIdx = 0 then
        s.snaps ++ [mkSnap m cfg s.stepIdx s.t s.u]
      else s.snaps := by
  rw [snapPhase]; split <;> rfl

theorem eulerIter_succ (m : Mesh α) (cfg : Config α) (sine : α → α)
    (twoPi : α) (u0 : Fin 4 → Nat → α) (k : Nat) :
    eulerIter m cfg sine twoPi u0 (k + 1) =
      eulerBody m cfg sine twoPi (eulerIter m cfg sine twoPi u0 k) :=
  Function.iterate_succ_apply' _ _ _

theorem rkIter_succ (m : Mesh α) (cfg : Config α) (sine : α → α)
    (twoPi : α) (u0 : Fin 4 → Nat → α) (k : Nat) :
    rkIter m cfg sine twoPi u0 (k + 1) =
      rkBody m cfg sine twoPi (rkIter m cfg sine twoPi u0 k) :=
  Function.iterate_succ_apply' _ _ _

theorem eulerBody_t (m : Mesh α) (cfg : Config α) (sine : α → α)
    (twoPi : α) (s : LoopState α) :
    (eulerBody m cfg sine twoPi s).t = s.t + cfg.timeStep := by
  show (snapPhase m cfg s).t + cfg.timeStep = s.t + cfg.timeStep
  rw [snapPhase_t]

theorem rkBody_t (m : Mesh α) (cfg : Config α) (sine : α → α)
    (twoPi : α) (s : LoopState α) :
    (rkBody m cfg sine twoPi s).t = s.t + cfg.timeStep := by
  show (snapPhase m cfg s).t + cfg.timeStep = s.t + cfg.timeStep
  rw [snapPhase_t]

theorem eulerBody_stepIdx (m : Mesh α) (cfg : Config α) (sine : α → α)
    (twoPi : α) (s : LoopState α) :
    (eulerBody m cfg sine twoPi s).stepIdx = s.stepIdx + 1 := by
  show (snapPhase m cfg s).stepIdx + 1 = s.stepIdx + 1
  rw [snapPhase_stepIdx]

theorem rkBody_stepIdx (m : Mesh α) (cfg : Config α) (sine : α → α)
    (twoPi : α) (s : LoopState α) :
    (rkBody m cfg sine twoPi s).stepIdx = s.stepIdx + 1 := by
  show (snapPhase m cfg s).stepIdx + 1 = s.stepIdx + 1
  rw [snapPhase_stepIdx]

theorem eulerBody_tDisplay (m : Mesh α) (cfg : Config α) (sine : α → α)
    (twoPi : α) (s : LoopState α) :
    (eulerBody m cfg sine twoPi s).tDisplay =
      (if cfg.timeRate ≤ s.tDisplay ∨ s.stepIdx = 0 then 0 else s.tDisplay) +
        cfg.timeStep := by
  show (snapPhase m cfg s).tDisplay + cfg.timeStep = _
  rw [snapPhase_tDisplay]

theorem rkBody_tDisplay (m : Mesh α) (cfg : Config α) (sine : α → α)
    (twoPi : α) (s : LoopState α) :
    (rkBody m cfg sine twoPi s).tDisplay =
      (if cfg.timeRate ≤ s.tDisplay ∨ s.stepIdx = 0 then 0 else s.tDisplay) +
        cfg.timeStep := by
  show (snapPhase m cfg s).tDisplay + cfg.timeStep = _
  rw [snapPhase_tDisplay]

theorem eulerBody_snaps (m : Mesh α) (cfg : Config α) (sine : α → α)
    (twoPi : α) (s : LoopState α) :
    (eulerBody m cfg sine twoPi s).snaps =
      if cfg.timeRate ≤ s.tDisplay ∨ s.stepIdx = 0 then
        s.snaps ++ [mkSnap m cfg s.stepIdx s.t s.u]
      else s.snaps := by
  show (snapPhase m cfg s).snaps = _
  rw [snapPhase_snaps]

theorem rkBody_snaps (m : Mesh α) (cfg : Config α) (sine : α → α)
    (twoPi : α) (s : LoopState α) :
    (rkBody m cfg sine twoPi s).snaps =
      if cfg.timeRate ≤ s.tDisplay ∨ s.stepIdx = 0 then
        s.snaps ++ [mkSnap m cfg s.stepIdx s.t s.u]
      else s.snaps := by
  show (snapPhase m cfg s).snaps = _
  rw [snapPhase_snaps]

theorem eulerBody_u (m : Mesh α) (cfg : Config α) (sine : α → α)
    (twoPi : α) (s : LoopState α) :
    (eulerBody m cfg sine twoPi s).u =
      numStep m cfg (injectPhase m sine twoPi cfg.sources s.t s.u)
        (m.updFlux (injectPhase m sine twoPi cfg.sources s.t s.u)
          cfg.v0 cfg.c0 cfg.rho0) 1 := by
  show numStep m cfg
      (injectPhase m sine twoPi cfg.sources (snapPhase m cfg s).t
        (snapPhase m cfg s).u) _ 1 = _
  rw [snapPhase_t, snapPhase_u]

theorem rkBody_u (m : Mesh α) (cfg : Config α) (sine : α → α)
    (twoPi : α) (s : LoopState α) :
    (rkBody m cfg sine twoPi s).u =
      rkCombine m.numNodes
        (injectPhase m sine twoPi cfg.sources s.t s.u)
        (rkK1 m cfg (injectPhase m sine twoPi cfg.sources s.t s.u))
        (rkK2 m cfg (injectPhase m sine twoPi cfg.sources s.t s.u))
        (rkK3 m cfg (injectPhase m sine twoPi cfg.sources s.t s.u))
        (rkK4 m cfg (injectPhase m sine twoPi cfg.sources s.t s.u)) := by
  show rkCombine m.numNodes
      (injectPhase m sine twoPi cfg.sources (snapPhase m cfg s).t
        (snapPhase m cfg s).u) _ _ _ _ = _
  rw [snapPhase_t, snapPhase_u]

theorem eulerIter_t (m : Mesh α) (cfg : Config α) (sine : α → α)
    (twoPi : α) (u0 : Fin 4 → Nat → α) (k : Nat) :
    (eulerIter m cfg sine twoPi u0 k).t =
      cfg.timeStart + (k : α) * cfg.timeStep := by
  induction k with
  | zero => simp [eulerIter, initState]
  | succ k ih =>
    rw [eulerIter_succ, eulerBody_t, ih]
    push_cast
    ring

theorem rkIter_t (m : Mesh α) (cfg : Config α) (sine : α → α)
    (twoPi : α) (u0 : Fin 4 → Nat → α) (k : Nat) :
    (rkIter m cfg sine twoPi u0 k).t =
      cfg.timeStart + (k : α) * cfg.timeStep := by
  induction k with
  | zero => simp [rkIter, initState]
  | succ k ih =>
    rw [rkIter_succ, rkBody_t, ih]
    push_cast
    ring

theorem eulerIter_stepIdx (m : Mesh α) (cfg : Config α) (sine : α → α)
    (twoPi : α) (u0 : Fin 4 → Nat → α) (k : Nat) :
    (eulerIter m cfg sine twoPi u0 k).stepIdx = k := by
  induction k with
  | zero => rfl
  | succ k ih => rw [eulerIter_succ, eulerBody_stepIdx, ih]

theorem rkIter_stepIdx (m : Mesh α) (cfg : Config α) (sine : α → α)
    (twoPi : α) (u0 : Fin 4 → Nat → α) (k : Nat) :
    (rkIter m cfg sine twoPi u0 k).stepIdx = k := by
  induction k with
  | zero => rfl
  | succ k ih => rw [rkIter_succ, rkBody_stepIdx, ih]

theorem srcIndices_mem (m : Mesh α) (s : Source α) (n : Nat) :
    n ∈ srcIndices m s ↔ n < m.numNodes ∧
      (m.coord n 0 - s.x) ^ 2 + (m.coord n 1 - s.y) ^ 2 +
        (m.coord n 2 - s.z) ^ 2 < s.radius ^ 2 := by
  rw [srcIndices, List.mem_filter, List.mem_range, decide_eq_true_eq]

theorem injectOne_apply (m : Mesh α) (sine : α → α) (twoPi : α) (t : α)
    (u : Fin 4 → Nat → α) (s : Source α) (eq : Fin 4) (i : Nat) :
    injectOne m sine twoPi t u s eq i =
      if t < s.duration ∧ eq = 0 ∧ i ∈ srcIndices m s then
        s.amp * sine (twoPi * s.freq * t + s.phase)
      else u eq i := by
  rw [injectOne]
  by_cases h : t < s.duration
  · rw [if_pos h]
    by_cases h2 : eq = 0 ∧ i ∈ srcIndices m s
    · rw [if_pos h2, if_pos ⟨h, h2⟩]
    · rw [if_neg h2, if_neg (by tauto)]
  · rw [if_neg h, if_neg (by tauto)]

theorem injectPhase_cons (m : Mesh α) (sine : α → α) (twoPi : α)
    (s : Source α) (rest : List (Source α)) (t : α) (u : Fin 4 → Nat → α) :
    injectPhase m sine twoPi (s :: rest) t u =
      injectPhase m sine twoPi rest t (injectOne m sine twoPi t u s) := rfl

theorem injectPhase_ne_zero (m : Mesh α) (sine : α → α) (twoPi : α)
    (srcs : List (Source α)) (t : α) (u : Fin 4 → Nat → α) (eq : Fin 4)
    (heq : eq ≠ 0) (i : Nat) :
    injectPhase m sine twoPi srcs t u eq i = u eq i := by
  induction srcs generalizing u with
  | nil => rfl
  | cons s rest ih =>
    rw [injectPhase_cons, ih, injectOne_apply, if_neg (by tauto)]

theorem injectPhase_notmem (m : Mesh α) (sine : α → α) (twoPi : α)
    (srcs : List (Source α)) (t : α) (u : Fin 4 → Nat → α) (i : Nat)
    (h : ∀ s ∈ srcs, t < s.duration → i ∉ srcIndices m s) :
    injectPhase m sine twoPi srcs t u 0 i = u 0 i := by
  induction srcs generalizing u with
  | nil => rfl
  | cons s rest ih =>
    rw [injectPhase_cons, ih _ fun s hs => h s (List.mem_cons_of_mem _ hs),
      injectOne_apply,
      if_neg fun hc => h s (List.mem_cons_self _ _) hc.1 hc.2.2]

theorem injectPhase_lastActive (m : Mesh α) (sine : α → α) (twoPi : α)
    (srcs : List (Source α)) (t : α) (u : Fin 4 → Nat → α) (i : Nat) :
    injectPhase m sine twoPi srcs t u 0 i =
      (srcs.reverse.find? fun s =>
          decide (t < s.duration ∧ i ∈ srcIndices m s)).elim
        (u 0 i) (fun s => s.amp * sine (twoPi * s.freq * t + s.phase)) := by
  induction srcs using List.reverseRecOn generalizing u with
  | nil => rfl
  | append_singleton rest s ih =>
    rw [injectPhase, List.foldl_append, List.foldl_cons, List.foldl_nil,
      List.reverse_append, List.reverse_singleton, List.singleton_append]
    show injectOne m sine twoPi t
        (injectPhase m sine twoPi rest t u) s 0 i = _
    by_cases hp : t < s.duration ∧ i ∈ srcIndices m s
    · rw [injectOne_apply, if_pos ⟨hp.1, rfl, hp.2⟩,
        List.find?_cons_of_pos _ (by simpa using hp)]
      rfl
    · rw [injectOne_apply, if_neg (by tauto),
        List.find?_cons_of_neg _ (by simpa using hp)]
      exact ih u

theorem eulerIter_snaps_mem (m : Mesh α) (cfg : Config α) (sine : α → α)
    (twoPi : α) (u0 : Fin 4 → Nat → α) (k : Nat) (sn : Snap α)
    (hsn : sn ∈ (eulerIter m cfg sine twoPi u0 k).snaps) :
    ∃ j, j < k ∧
      sn = mkSnap m cfg j (cfg.timeStart + (j : α) * cfg.timeStep)
        ((eulerIter m cfg sine twoPi u0 j).u) := by
  induction k with
  | zero => simp [eulerIter, initState] at hsn
  | succ k ih =>
    rw [eulerIter_succ, eulerBody_snaps] at hsn
    split at hsn
    · rw [List.mem_append, List.mem_singleton] at hsn
      rcases hsn with h | h
      · obtain ⟨j, hj, hj2⟩ := ih h
        exact ⟨j, by omega, hj2⟩
      · refine ⟨k, by omega, ?_⟩
        rw [h, eulerIter_stepIdx, eulerIter_t]
    · obtain ⟨j, hj, hj2⟩ := ih hsn
      exact ⟨j, by omega, hj2⟩

theorem rkIter_snaps_mem (m : Mesh α) (cfg : Config α) (sine : α → α)
    (twoPi : α) (u0 : Fin 4 → Nat → α) (k : Nat) (sn : Snap α)
    (hsn : sn ∈ (rkIter m cfg sine twoPi u0 k).snaps) :
    ∃ j, j < k ∧
      sn = mkSnap m cfg j (cfg.timeStart + (j : α) * cfg.timeStep)
        ((rkIter m cfg sine twoPi u0 j).u) := by
  induction k with
  | zero => simp [rkIter, initState] at hsn
  | succ k ih =>
    rw [rkIter_succ, rkBody_snaps] at hsn
    split at hsn
    · rw [List.mem_append, List.mem_singleton] at hsn
      rcases hsn with h | h
      · obtain ⟨j, hj, hj2⟩ := ih h
        exact ⟨j, by omega, hj2⟩
      · refine ⟨k, by omega, ?_⟩
        rw [h, rkIter_stepIdx, rkIter_t]
    · obtain ⟨j, hj, hj2⟩ := ih hsn
      exact ⟨j, by omega, hj2⟩

theorem succ_mod_eq (k mm : Nat) (hmm : 0 < mm) :
    (k + 1) % mm = if k % mm + 1 = mm then 0 else k % mm + 1 := by
  rcases Nat.lt_or_ge 1 mm with h2 | h2
  · rw [Nat.add_mod, Nat.mod_eq_of_lt h2]
    have hr : k % mm < mm := Nat.mod_lt _ hmm
    by_cases he : k % mm + 1 = mm
    · rw [if_pos he, he, Nat.mod_self]
    · rw [if_neg he, Nat.mod_eq_of_lt (by omega)]
  · have h1 : mm = 1 := by omega
    subst h1
    rw [Nat.mod_one, Nat.mod_one]
    norm_num

theorem iterate_stepIdx (b : LoopState α → LoopState α)
    (hsi : ∀ s, (b s).stepIdx = s.stepIdx + 1) (s0 : LoopState α)
    (h0 : s0.stepIdx = 0) (k : Nat) : (b^[k] s0).stepIdx = k := by
  induction k with
  | zero => exact h0
  | succ k ih => rw [Function.iterate_succ_apply', hsi, ih]

theorem cadence (b : LoopState α → LoopState α) (R dt : α)
    (htd : ∀ s, (b s).tDisplay =
      (if R ≤ s.tDisplay ∨ s.stepIdx = 0 then 0 else s.tDisplay) + dt)
    (hsi : ∀ s, (b s).stepIdx = s.stepIdx + 1)
    (s0 : LoopState α) (h0 : s0.tDisplay = 0) (hi0 : s0.stepIdx = 0)
    (mm : Nat) (hmm : 1 ≤ mm) (hdt : 0 < dt) (hR : R = (mm : α) * dt)
    (k : Nat) :
    ((b^[k] s0).tDisplay = if k = 0 then 0
        else (((if k % mm = 0 then mm else k % mm) : Nat) : α) * dt) ∧
      ((R ≤ (b^[k] s0).tDisplay ∨ (b^[k] s0).stepIdx = 0) ↔ mm ∣ k) := by
  have hmm0 : 0 < mm := hmm
  have hguard_of : ∀ j : Nat, j ≠ 0 →
      (b^[j] s0).tDisplay =
        (((if j % mm = 0 then mm else j % mm) : Nat) : α) * dt →
      ((R ≤ (b^[j] s0).tDisplay ∨ (b^[j] s0).stepIdx = 0) ↔ mm ∣ j) := by
    intro j hj htdj
    rw [iterate_stepIdx b hsi s0 hi0 j, htdj, hR]
    have hrlt : j % mm < mm := Nat.mod_lt _ hmm0
    constructor
    · rintro (hle | hc)
      · have hle2 : (mm : α) ≤ ((if j % mm = 0 then mm else j % mm : Nat) : α) :=
          le_of_mul_le_mul_right hle hdt
        have hle3 : mm ≤ (if j % mm = 0 then mm else j % mm) :=
          Nat.cast_le.mp hle2
        have hmod0 : j % mm = 0 := by
          by_contra hc2
          rw [if_neg hc2] at hle3
          omega
        exact Nat.dvd_iff_mod_eq_zero.mpr hmod0
      · exact absurd hc hj
    · intro hdvd
      left
      have hmod0 : j % mm = 0 := Nat.dvd_iff_mod_eq_zero.mp hdvd
      rw [if_pos hmod0]
  induction k with
  | zero =>
    refine ⟨by simpa using h0, ?_⟩
    constructor
    · intro _; exact dvd_zero mm
    · intro _; right; simpa using hi0
  | succ k ih =>
    obtain ⟨ihA, ihB⟩ := ih
    have hA : (b^[k + 1] s0).tDisplay =
        (((if (k + 1) % mm = 0 then mm else (k + 1) % mm) : Nat) : α) * dt := by
      rw [Function.iterate_succ_apply', htd (b^[k] s0)]
      by_cases hdvd : mm ∣ k
      · rw [if_pos (ihB.mpr hdvd)]
        have hk0 : k % mm = 0 := Nat.dvd_iff_mod_eq_zero.mp hdvd
        have hsucc : (k + 1) % mm = if 0 + 1 = mm then 0 else 0 + 1 := by
          rw [succ_mod_eq k mm hmm0, hk0]
        have hval : (if (k + 1) % mm = 0 then mm else (k + 1) % mm) = 1 := by
          by_cases h1 : 0 + 1 = mm
          · rw [if_pos h1] at hsucc
            rw [hsucc, if_pos rfl]
            omega
          · rw [if_neg h1] at hsucc
            rw [hsucc, if_neg (by omega)]
        rw [hval]
        push_cast
        ring
      · have hk0 : k ≠ 0 := fun h => hdvd (h ▸ dvd_zero mm)
        have hkm : k % mm ≠ 0 :=
          fun h => hdvd (Nat.dvd_iff_mod_eq_zero.mpr h)
        have hng : ¬(R ≤ (b^[k] s0).tDisplay ∨ (b^[k] s0).stepIdx = 0) :=
          fun h => hdvd (ihB.mp h)
        have hrlt : k % mm < mm := Nat.mod_lt _ hmm0
        have hsucc : (k + 1) % mm =
            if k % mm + 1 = mm then 0 else k % mm + 1 :=
          succ_mod_eq k mm hmm0
        have hval : (if (k + 1) % mm = 0 then mm else (k + 1) % mm) =
            k % mm + 1 := by
          by_cases h1 : k % mm + 1 = mm
          · rw [if_pos h1] at hsucc
            rw [hsucc, if_pos rfl]
            omega
          · rw [if_neg h1] at hsucc
            rw [hsucc, if_neg (by omega)]
        rw [if_neg hng, ihA, if_neg hk0, if_neg hkm, hval]
        push_cast
        ring
    refine ⟨?_, hguard_of (k + 1) (Nat.succ_ne_zero k) hA⟩
    rw [if_neg (Nat.succ_ne_zero k)]
    exact hA

theorem srcIndices_lt (m : Mesh α) (s : Source α) (i : Nat)
    (h : i ∈ srcIndices m s) : i < m.numNodes :=
  ((srcIndices_mem m s i).mp h).1

theorem uPat_out (m : Mesh α) (cfg : Config α) (sine : α → α) (twoPi : α)
    (s : Source α) (k : Nat) (eq : Fin 4) (i : Nat)
    (hle : m.numNodes ≤ i) : uPat m cfg sine twoPi s k eq i = 0 := by
  cases k with
  | zero => rfl
  | succ k2 =>
    show (if eq = 0 ∧ i ∈ srcIndices m s then _ else 0) = 0
    rw [if_neg fun hc =>
      absurd (srcIndices_lt m s i hc.2) (not_lt.mpr hle)]

theorem numStep_beta_one_id (m : Mesh α) (cfg : Config α)
    (u : Fin 4 → Nat → α) (F : Fin 4 → Nat → Fin 3 → α)
    (hS : ∀ el Fq g j, m.elStiffVec el Fq g j = 0)
    (hF : ∀ (eq : Fin 4) g Fq el j, m.elFluxVec eq g Fq el j = 0)
    (hM : ∀ el (f : Nat → α) j, (∀ i, f i = 0) → m.elMassInv el f j = 0)
    (eq : Fin 4) (i : Nat) : numStep m cfg u F 1 eq i = u eq i := by
  rw [numStep_zero_resid m cfg u F 1 hS hF hM]
  split <;> simp

theorem inject_uPat (m : Mesh α) (cfg : Config α) (sine : α → α)
    (twoPi : α) (s : Source α) (hamp : s.amp = 1) (hfreq : s.freq = 1)
    (hphase : s.phase = 0) (k : Nat)
    (hdurk : cfg.timeStart + (k : α) * cfg.timeStep < s.duration)
    (eq : Fin 4) (i : Nat) :
    injectPhase m sine twoPi [s]
      (cfg.timeStart + (k : α) * cfg.timeStep)
      (uPat m cfg sine twoPi s k) eq i =
      uPat m cfg sine twoPi s (k + 1) eq i := by
  rw [injectPhase_cons]
  show injectOne m sine twoPi _ (uPat m cfg sine twoPi s k) s eq i = _
  rw [injectOne_apply]
  by_cases hmem : eq = 0 ∧ i ∈ srcIndices m s
  · rw [if_pos ⟨hdurk, hmem⟩]
    show _ = (if eq = 0 ∧ i ∈ srcIndices m s then
      sine (twoPi * (cfg.timeStart + (k : α) * cfg.timeStep)) else 0)
    rw [if_pos hmem, hamp, hfreq, hphase, one_mul, mul_one, add_zero]
  · rw [if_neg fun hc => hmem ⟨hc.2.1, hc.2.2⟩]
    cases k with
    | zero =>
      show (0 : α) = (if eq = 0 ∧ i ∈ srcIndices m s then _ else 0)
      rw [if_neg hmem]
    | succ k2 =>
      show (if eq = 0 ∧ i ∈ srcIndices m s then _ else 0) =
        (if eq = 0 ∧ i ∈ srcIndices m s then _ else 0)
      rw [if_neg hmem, if_neg hmem]

theorem euler_scenario_u (m : Mesh α) (cfg : Config α) (sine : α → α)
    (twoPi : α) (s : Source α)
    (hsrc : cfg.sources = [s]) (hamp : s.amp = 1) (hfreq : s.freq = 1)
    (hphase : s.phase = 0)
    (hM : ∀ el (f : Nat → α) j, (∀ i, f i = 0) → m.elMassInv el f j = 0)
    (hS : ∀ el Fq g j, m.elStiffVec el Fq g j = 0)
    (hF : ∀ (eq : Fin 4) g Fq el j, m.elFluxVec eq g Fq el j = 0)
    (K : Nat) (hdur : ∀ j : Nat, j < K →
      cfg.timeStart + (j : α) * cfg.timeStep < s.duration)
    (k : Nat) (hk : k ≤ K) (eq : Fin 4) (i : Nat) :
    (eulerIter m cfg sine twoPi (fun _ _ => 0) k).u eq i =
      uPat m cfg sine twoPi s k eq i := by
  induction k generalizing eq i with
  | zero => rfl
  | succ k ih =>
    have hk2 : k ≤ K := Nat.le_of_succ_le hk
    rw [eulerIter_succ, eulerBody_u, hsrc, eulerIter_t]
    have hu : (eulerIter m cfg sine twoPi (fun _ _ => 0) k).u =
        uPat m cfg sine twoPi s k :=
      funext fun a => funext fun b => ih hk2 a b
    rw [hu]
    have hinj : injectPhase m sine twoPi [s]
        (cfg.timeStart + (k : α) * cfg.timeStep)
        (uPat m cfg sine twoPi s k) =
        uPat m cfg sine twoPi s (k + 1) :=
      funext fun a => funext fun b =>
        inject_uPat m cfg sine twoPi s hamp hfreq hphase k
          (hdur k (by omega)) a b
    rw [hinj]
    exact numStep_beta_one_id m cfg _ _ hS hF hM eq i

theorem rk_scenario_u (m : Mesh α) (cfg : Config α) (sine : α → α)
    (twoPi : α) (s : Source α)
    (hsrc : cfg.sources = [s]) (hamp : s.amp = 1) (hfreq : s.freq = 1)
    (hphase : s.phase = 0)
    (hNN : m.numNodes = m.elNum * m.elNumNodes)
    (hM : ∀ el (f : Nat → α) j, (∀ i, f i = 0) → m.elMassInv el f j = 0)
    (hS : ∀ el Fq g j, m.elStiffVec el Fq g j = 0)
    (hF : ∀ (eq : Fin 4) g Fq el j, m.elFluxVec eq g Fq el j = 0)
    (K : Nat) (hdur : ∀ j : Nat, j < K →
      cfg.timeStart + (j : α) * cfg.timeStep < s.duration)
    (k : Nat) (hk : k ≤ K) (eq : Fin 4) (i : Nat) :
    (rkIter m cfg sine twoPi (fun _ _ => 0) k).u eq i =
      uPat m cfg sine twoPi s k eq i := by
  induction k generalizing eq i with
  | zero => rfl
  | succ k ih =>
    have hk2 : k ≤ K := Nat.le_of_succ_le hk
    rw [rkIter_succ, rkBody_u, hsrc, rkIter_t]
    have hu : (rkIter m cfg sine twoPi (fun _ _ => 0) k).u =
        uPat m cfg sine twoPi s k :=
      funext fun a => funext fun b => ih hk2 a b
    rw [hu]
    have hinj : injectPhase m sine twoPi [s]
        (cfg.timeStart + (k : α) * cfg.timeStep)
        (uPat m cfg sine twoPi s k) =
        uPat m cfg sine twoPi s (k + 1) :=
      funext fun a => funext fun b =>
        inject_uPat m cfg sine twoPi s hamp hfreq hphase k
          (hdur k (by omega)) a b
    rw [hinj]
    have hout : ∀ (a : Fin 4) (b : Nat), ¬ b < m.elNum * m.elNumNodes →
        uPat m cfg sine twoPi s (k + 1) a b = 0 := fun a b hb =>
      uPat_out m cfg sine twoPi s (k + 1) a b (by omega)
    have h1 : ∀ (a : Fin 4) (b : Nat),
        rkK1 m cfg (uPat m cfg sine twoPi s (k + 1)) a b = 0 := by
      intro a b
      rw [rkK1, numStep_zero_resid m cfg _ _ 0 hS hF hM]
      by_cases hb : b < m.elNum * m.elNumNodes
      · rw [if_pos hb, zero_mul]
      · rw [if_neg hb]
        exact hout a b hb
    have h2b : ∀ (a : Fin 4) (b : Nat),
        rkK2base m cfg (uPat m cfg sine twoPi s (k + 1)) a b = 0 := by
      intro a b
      show plusTimes _ _ (1 / 2) m.numNodes b = 0
      rw [plusTimes]
      by_cases hb : b < m.numNodes
      · rw [if_pos hb, h1, zero_mul]
      · rw [if_neg hb]
        exact uPat_out m cfg sine twoPi s (k + 1) a b (by omega)
    have h2 : ∀ (a : Fin 4) (b : Nat),
        rkK2 m cfg (uPat m cfg sine twoPi s (k + 1)) a b = 0 :=
      fun a b => numStep_zero m cfg _ _ 0 hS hF hM h2b a b
    have h3b : ∀ (a : Fin 4) (b : Nat),
        rkK3base m cfg (uPat m cfg sine twoPi s (k + 1)) a b = 0 := by
      intro a b
      show plusTimes _ _ (1 / 2) m.numNodes b = 0
      rw [plusTimes]
      by_cases hb : b < m.numNodes
      · rw [if_pos hb, h2, zero_mul]
      · rw [if_neg hb]
        exact uPat_out m cfg sine twoPi s (k + 1) a b (by omega)
    have h3 : ∀ (a : Fin 4) (b : Nat),
        rkK3 m cfg (uPat m cfg sine twoPi s (k + 1)) a b = 0 :=
      fun a b => numStep_zero m cfg _ _ 0 hS hF hM h3b a b
    have h4b : ∀ (a : Fin 4) (b : Nat),
        rkK4base m cfg (uPat m cfg sine twoPi s (k + 1)) a b = 0 := by
      intro a b
      show plusTimes _ _ 1 m.numNodes b = 0
      rw [plusTimes]
      by_cases hb : b < m.numNodes
      · rw [if_pos hb, h3, zero_mul]
      · rw [if_neg hb]
        exact uPat_out m cfg sine twoPi s (k + 1) a b (by omega)
    have h4 : ∀ (a : Fin 4) (b : Nat),
        rkK4 m cfg (uPat m cfg sine twoPi s (k + 1)) a b = 0 :=
      fun a b => numStep_zero m cfg _ _ 0 hS hF hM h4b a b
    rw [rkCombine]
    by_cases hb : i < m.numNodes
    · rw [if_pos hb, h1, h2, h3, h4]
      ring_nf
    · rw [if_neg hb]

/-- C1: for every equation eq in 0..3 and every element el, one forward
Euler step (numStep called with beta = 1 after the flux refresh) replaces
the element's contiguous block of elNumNodes entries in u[eq] by dt times
the element's mass-matrix inverse applied to (element stiffness vector
minus element flux vector), plus the old block value. -/
theorem claim_C1 (m : Mesh α) (cfg : Config α) (u : Fin 4 → Nat → α)
    (Flux : Fin 4 → Nat → Fin 3 → α) (eq : Fin 4) (el n : Nat)
    (hel : el < m.elNum) (hn : n < m.elNumNodes) :
    numStep m cfg u Flux 1 eq (el * m.elNumNodes + n) =
      cfg.timeStep * m.elMassInv el
        (fun j => m.elStiffVec el (Flux eq) (u eq) j -
          m.elFluxVec eq (u eq) (Flux eq) el j) n +
      u eq (el * m.elNumNodes + n) := by
  have h := numStepEq_block m cfg.timeStep 1 eq (Flux eq) (u eq) el n hel hn
  simpa [numStep, elNewBlock, elResid, one_mul] using h

/-- Witness for C1: on a concrete one-element mesh with stiffness 3, flux
1, identity mass solve, dt = 2 and u = 5 the updated entry is
2·(3−1)+5 = 9. -/
theorem claim_C1_witness :
    numStep mesh2 cfgC1 uC1 flC1 1 0 (0 * mesh2.elNumNodes + 0) = 9 ∧
    numStep mesh2 cfgC1 uC1 flC1 1 0 (0 * mesh2.elNumNodes + 0) =
      cfgC1.timeStep * mesh2.elMassInv 0
        (fun j => mesh2.elStiffVec 0 (flC1 0) (uC1 0) j -
          mesh2.elFluxVec 0 (uC1 0) (flC1 0) 0 j) 0 +
      uC1 0 (0 * mesh2.elNumNodes + 0) := by
  constructor
  · have h : numStep mesh2 cfgC1 uC1 flC1 1 0 (0 * mesh2.elNumNodes + 0) =
        elNewBlock mesh2 cfgC1.timeStep 1 0 (flC1 0) (uC1 0) 0 0 :=
      numStepEq_block mesh2 cfgC1.timeStep 1 0 (flC1 0) (uC1 0) 0 0
        (by decide) (by decide)
    rw [h]
    norm_num [elNewBlock, elResid, mesh2, mesh1, cfgC1, cfg1, uC1, flC1]
  · exact claim_C1 mesh2 cfgC1 uC1 flC1 0 0 0 (by decide) (by decide)

/-- C6: a node is in a source's precomputed index set iff the squared
distance from its coordinates to the source center is strictly less than
the squared radius; a node at distance exactly the radius is excluded. -/
theorem claim_C6 (m : Mesh α) (s : Source α) (n : Nat) :
    (n ∈ srcIndices m s ↔ n < m.numNodes ∧
        (m.coord n 0 - s.x) ^ 2 + (m.coord n 1 - s.y) ^ 2 +
          (m.coord n 2 - s.z) ^ 2 < s.radius ^ 2) ∧
      ((m.coord n 0 - s.x) ^ 2 + (m.coord n 1 - s.y) ^ 2 +
          (m.coord n 2 - s.z) ^ 2 = s.radius ^ 2 →
        n ∉ srcIndices m s) := by
  refine ⟨srcIndices_mem m s n, fun heq hmem => ?_⟩
  have h := (srcIndices_mem m s n).mp hmem
  rw [heq] at h
  exact lt_irrefl _ h.2

/-- Witness for C6: the origin node is at distance exactly 1 from the
center of `srcB` (radius 1) and is excluded from its index set. -/
theorem claim_C6_witness :
    (mesh1.coord 0 0 - srcB.x) ^ 2 + (mesh1.coord 0 1 - srcB.y) ^ 2 +
        (mesh1.coord 0 2 - srcB.z) ^ 2 = srcB.radius ^ 2 ∧
      0 ∉ srcIndices mesh1 srcB := by
  have heq : (mesh1.coord 0 0 - srcB.x) ^ 2 + (mesh1.coord 0 1 - srcB.y) ^ 2 +
      (mesh1.coord 0 2 - srcB.z) ^ 2 = srcB.radius ^ 2 := by
    norm_num [mesh1, srcB, src1]
  exact ⟨heq, (claim_C6 mesh1 srcB 0).2 heq⟩

/-- Counterexample for C7 as stated: with two active overlapping sources
(amplitudes 1 and 2, sine constantly 1) the pressure at the shared node 0
ends at the second source's value 2, not the first source's value 1, even
though source `src1` is active and node 0 is in its index set. -/
theorem claim_C7_counterexample :
    (0 : ℚ) < src1.duration ∧ 0 ∈ srcIndices mesh1 src1 ∧
      injectPhase mesh1 (fun _ => 1) 1 [src1, src2] 0 (fun _ _ => 0) 0 0 ≠
        src1.amp * (fun _ => (1 : ℚ)) (1 * src1.freq * 0 + src1.phase) := by
  have hmem1 : 0 ∈ srcIndices mesh1 src1 :=
    (srcIndices_mem mesh1 src1 0).mpr
      ⟨by norm_num [mesh1], by norm_num [mesh1, src1]⟩
  have hmem2 : 0 ∈ srcIndices mesh1 src2 :=
    (srcIndices_mem mesh1 src2 0).mpr
      ⟨by norm_num [mesh1], by norm_num [mesh1, src2, src1]⟩
  refine ⟨by norm_num [src1], hmem1, ?_⟩
  have hval : injectPhase mesh1 (fun _ => 1) 1 [src1, src2] 0
      (fun _ _ => 0) 0 0 = 2 := by
    rw [injectPhase_cons, injectPhase_cons]
    show injectOne mesh1 (fun _ => 1) 1 0
        (injectOne mesh1 (fun _ => 1) 1 0 (fun _ _ => 0) src1) src2 0 0 = 2
    rw [injectOne_apply,
      if_pos ⟨by norm_num [src2, src1], rfl, hmem2⟩]
    norm_num [src2, src1]
  rw [hval]
  norm_num [src1]

/-- C7 (amended): at a time-loop iteration with time t, the injection
stage leaves the pressure entry of node n equal to
amp·sin(2π·freq·t+phase) of the LAST source in configuration order that
is still active (t < duration) and whose index set contains n; if no such
source exists the entry is unchanged.  In particular an expired source
injects nothing. -/
theorem claim_C7 (m : Mesh α) (sine : α → α) (twoPi : α)
    (srcs : List (Source α)) (t : α) (u : Fin 4 → Nat → α) (n : Nat) :
    injectPhase m sine twoPi srcs t u 0 n =
      (srcs.reverse.find? fun s =>
          decide (t < s.duration ∧ n ∈ srcIndices m s)).elim
        (u 0 n) (fun s => s.amp * sine (twoPi * s.freq * t + s.phase)) :=
  injectPhase_lastActive m sine twoPi srcs t u n

/-- C9: the injection stage modifies only the pressure sequence u[0], and
within it only entries whose index lies in the set of an active source;
the velocity sequences and all other pressure entries are unchanged. -/
theorem claim_C9 (m : Mesh α) (sine : α → α) (twoPi : α)
    (srcs : List (Source α)) (t : α) (u : Fin 4 → Nat → α) :
    (∀ eq : Fin 4, eq ≠ 0 →
      ∀ i, injectPhase m sine twoPi srcs t u eq i = u eq i) ∧
    (∀ i, (∀ s ∈ srcs, t < s.duration → i ∉ srcIndices m s) →
      injectPhase m sine twoPi srcs t u 0 i = u 0 i) :=
  ⟨fun eq heq i => injectPhase_ne_zero m sine twoPi srcs t u eq heq i,
   fun i h => injectPhase_notmem m sine twoPi srcs t u i h⟩

/-- Witness for C9: with the concrete source list [src1], the x-velocity
at node 0 and the pressure at node 5 (outside the source region) are
unchanged by injection. -/
theorem claim_C9_witness :
    injectPhase mesh1 (fun _ => 1) 1 [src1] 0 uC1 1 0 = uC1 1 0 ∧
      injectPhase mesh1 (fun _ => 1) 1 [src1] 0 uC1 0 5 = uC1 0 5 := by
  have hout : ∀ s ∈ [src1], (0 : ℚ) < s.duration →
      5 ∉ srcIndices mesh1 s := by
    intro s hs _ hmem
    rw [List.mem_singleton] at hs
    subst hs
    have h5 := ((srcIndices_mem mesh1 src1 5).mp hmem).1
    norm_num [mesh1] at h5
  exact ⟨(claim_C9 mesh1 (fun _ => 1) 1 [src1] 0 uC1).1 1 (by decide) 0,
    (claim_C9 mesh1 (fun _ => 1) 1 [src1] 0 uC1).2 5 hout⟩

/-- C2: in rungeKutta, after stage 1's numStep(k1, beta=0) the stage-2
base k2 is set pointwise to k1·0.5; after stage 2, k3 = k2·0.5; after
stage 3, k4 = k3·1; and each resulting stage vector is the base from
which the next stage's flux refresh (and numStep) is computed. -/
theorem claim_C2 (m : Mesh α) (cfg : Config α) (u1 : Fin 4 → Nat → α) :
    (∀ (eq : Fin 4) (i : Nat), i < m.numNodes →
      rkK2base m cfg u1 eq i = rkK1 m cfg u1 eq i * (1 / 2) ∧
      rkK3base m cfg u1 eq i = rkK2 m cfg u1 eq i * (1 / 2) ∧
      rkK4base m cfg u1 eq i = rkK3 m cfg u1 eq i * 1) ∧
    rkK2 m cfg u1 = numStep m cfg (rkK2base m cfg u1)
      (m.updFlux (rkK2base m cfg u1) cfg.v0 cfg.c0 cfg.rho0) 0 ∧
    rkK3 m cfg u1 = numStep m cfg (rkK3base m cfg u1)
      (m.updFlux (rkK3base m cfg u1) cfg.v0 cfg.c0 cfg.rho0) 0 ∧
    rkK4 m cfg u1 = numStep m cfg (rkK4base m cfg u1)
      (m.updFlux (rkK4base m cfg u1) cfg.v0 cfg.c0 cfg.rho0) 0 := by
  refine ⟨fun eq i hi => ⟨?_, ?_, ?_⟩, rfl, rfl, rfl⟩ <;>
    simp [rkK2base, rkK3base, rkK4base, plusTimes4, plusTimes, hi]

/-- Witness for C2 on the concrete one-node mesh at node 0. -/
theorem claim_C2_witness :
    rkK2base mesh1 cfg1 uC1 0 0 = rkK1 mesh1 cfg1 uC1 0 0 * (1 / 2) ∧
    rkK3base mesh1 cfg1 uC1 0 0 = rkK2 mesh1 cfg1 uC1 0 0 * (1 / 2) ∧
    rkK4base mesh1 cfg1 uC1 0 0 = rkK3 mesh1 cfg1 uC1 0 0 * 1 :=
  (claim_C2 mesh1 cfg1 uC1).1 0 0 (by decide)

/-- C3: after all four stages of one rungeKutta iteration the solution is
combined in place as u[eq][i] += (k1+2·k2+2·k3+k4)/6 for every equation
and node index i < numNodes, where k1..k4 are the stage vectors computed
by that iteration from the injected solution. -/
theorem claim_C3 (m : Mesh α) (cfg : Config α) (sine : α → α) (twoPi : α)
    (s : LoopState α) (eq : Fin 4) (i : Nat) (hi : i < m.numNodes) :
    (rkBody m cfg sine twoPi s).u eq i =
      injectPhase m sine twoPi cfg.sources s.t s.u eq i +
        (rkK1 m cfg (injectPhase m sine twoPi cfg.sources s.t s.u) eq i +
          2 * rkK2 m cfg (injectPhase m sine twoPi cfg.sources s.t s.u) eq i +
          2 * rkK3 m cfg (injectPhase m sine twoPi cfg.sources s.t s.u) eq i +
          rkK4 m cfg (injectPhase m sine twoPi cfg.sources s.t s.u) eq i) /
          6 := by
  rw [rkBody_u]
  simp [rkCombine, hi]

/-- Witness for C3 on the concrete one-node mesh without sources. -/
theorem claim_C3_witness :
    (rkBody mesh1 cfg0 (fun _ => 1) 1 (initState cfg0 uC1)).u 0 0 =
      injectPhase mesh1 (fun _ => 1) 1 cfg0.sources
          (initState cfg0 uC1).t (initState cfg0 uC1).u 0 0 +
        (rkK1 mesh1 cfg0 (injectPhase mesh1 (fun _ => 1) 1 cfg0.sources
            (initState cfg0 uC1).t (initState cfg0 uC1).u) 0 0 +
          2 * rkK2 mesh1 cfg0 (injectPhase mesh1 (fun _ => 1) 1 cfg0.sources
            (initState cfg0 uC1).t (initState cfg0 uC1).u) 0 0 +
          2 * rkK3 mesh1 cfg0 (injectPhase mesh1 (fun _ => 1) 1 cfg0.sources
            (initState cfg0 uC1).t (initState cfg0 uC1).u) 0 0 +
          rkK4 mesh1 cfg0 (injectPhase mesh1 (fun _ => 1) 1 cfg0.sources
            (initState cfg0 uC1).t (initState cfg0 uC1).u) 0 0) / 6 :=
  claim_C3 mesh1 cfg0 (fun _ => 1) 1 (initState cfg0 uC1) 0 0 (by decide)

/-- C8: with no configured sources, an all-zero initial solution and a
mesh collaborator whose stiffness and flux vectors are identically zero
(its mass-matrix solve, being an exact linear solve, maps the zero
residual to zero), the solution stays exactly zero at every node and
every equation after every time step, under both integrators. -/
theorem claim_C8 (m : Mesh α) (cfg : Config α) (sine : α → α) (twoPi : α)
    (hsrc : cfg.sources = [])
    (hS : ∀ el Fq g j, m.elStiffVec el Fq g j = 0)
    (hF : ∀ (eq : Fin 4) g Fq el j, m.elFluxVec eq g Fq el j = 0)
    (hM : ∀ el (f : Nat → α) j, (∀ i, f i = 0) → m.elMassInv el f j = 0)
    (k : Nat) (eq : Fin 4) (i : Nat) :
    (eulerIter m cfg sine twoPi (fun _ _ => 0) k).u eq i = 0 ∧
    (rkIter m cfg sine twoPi (fun _ _ => 0) k).u eq i = 0 := by
  have hE : ∀ k (eq : Fin 4) (i : Nat),
      (eulerIter m cfg sine twoPi (fun _ _ => 0) k).u eq i = 0 := by
    intro k
    induction k with
    | zero => intro eq i; rfl
    | succ k ih =>
      intro eq i
      rw [eulerIter_succ, eulerBody_u]
      have hinj : injectPhase m sine twoPi cfg.sources
          (eulerIter m cfg sine twoPi (fun _ _ => 0) k).t
          (eulerIter m cfg sine twoPi (fun _ _ => 0) k).u =
          (eulerIter m cfg sine twoPi (fun _ _ => 0) k).u := by
        rw [hsrc]; rfl
      rw [hinj]
      exact numStep_zero m cfg _ _ 1 hS hF hM ih eq i
  have hRk : ∀ k (eq : Fin 4) (i : Nat),
      (rkIter m cfg sine twoPi (fun _ _ => 0) k).u eq i = 0 := by
    intro k
    induction k with
    | zero => intro eq i; rfl
    | succ k ih =>
      intro eq i
      rw [rkIter_succ, rkBody_u]
      have hinj : injectPhase m sine twoPi cfg.sources
          (rkIter m cfg sine twoPi (fun _ _ => 0) k).t
          (rkIter m cfg sine twoPi (fun _ _ => 0) k).u =
          (rkIter m cfg sine twoPi (fun _ _ => 0) k).u := by
        rw [hsrc]; rfl
      rw [hinj]
      have h1 : ∀ (eq : Fin 4) (i : Nat),
          rkK1 m cfg (rkIter m cfg sine twoPi (fun _ _ => 0) k).u eq i = 0 :=
        fun eq i => numStep_zero m cfg _ _ 0 hS hF hM ih eq i
      have h2b : ∀ (eq : Fin 4) (i : Nat),
          rkK2base m cfg (rkIter m cfg sine twoPi (fun _ _ => 0) k).u eq i
            = 0 := by
        intro eq i
        simp [rkK2base, plusTimes4, plusTimes, h1, ih]
      have h2 : ∀ (eq : Fin 4) (i : Nat),
          rkK2 m cfg (rkIter m cfg sine twoPi (fun _ _ => 0) k).u eq i = 0 :=
        fun eq i => numStep_zero m cfg _ _ 0 hS hF hM h2b eq i
      have h3b : ∀ (eq : Fin 4) (i : Nat),
          rkK3base m cfg (rkIter m cfg sine twoPi (fun _ _ => 0) k).u eq i
            = 0 := by
        intro eq i
        simp [rkK3base, plusTimes4, plusTimes, h2, ih]
      have h3 : ∀ (eq : Fin 4) (i : Nat),
          rkK3 m cfg (rkIter m cfg sine twoPi (fun _ _ => 0) k).u eq i = 0 :=
        fun eq i => numStep_zero m cfg _ _ 0 hS hF hM h3b eq i
      have h4b : ∀ (eq : Fin 4) (i : Nat),
          rkK4base m cfg (rkIter m cfg sine twoPi (fun _ _ => 0) k).u eq i
            = 0 := by
        intro eq i
        simp [rkK4base, plusTimes4, plusTimes, h3, ih]
      have h4 : ∀ (eq : Fin 4) (i : Nat),
          rkK4 m cfg (rkIter m cfg sine twoPi (fun _ _ => 0) k).u eq i = 0 :=
        fun eq i => numStep_zero m cfg _ _ 0 hS hF hM h4b eq i
      simp [rkCombine, h1, h2, h3, h4, ih]
  exact ⟨hE k eq i, hRk k eq i⟩

/-- Witness for C8: after two steps on the concrete zero mesh the
solution entry (0,0) is still zero under both integrators. -/
theorem claim_C8_witness :
    (eulerIter mesh1 cfg0 (fun _ => 1) 1 (fun _ _ => 0) 2).u 0 0 = 0 ∧
    (rkIter mesh1 cfg0 (fun _ => 1) 1 (fun _ _ => 0) 2).u 0 0 = 0 :=
  claim_C8 mesh1 cfg0 (fun _ => 1) 1 rfl (fun _ _ _ _ => rfl)
    (fun _ _ _ _ _ => rfl) (fun _ _ j h => h j) 2 0 0

/-- A forwardEuler snapshot is emitted at iteration k exactly when the
guard of the snapshot check holds there. -/
theorem emitsAt_iff_euler (m : Mesh α) (cfg : Config α) (sine : α → α)
    (twoPi : α) (u0 : Fin 4 → Nat → α) (k : Nat) :
    ((eulerIter m cfg sine twoPi u0 (k + 1)).snaps.length =
        (eulerIter m cfg sine twoPi u0 k).snaps.length + 1) ↔
      (cfg.timeRate ≤ (eulerIter m cfg sine twoPi u0 k).tDisplay ∨
        k = 0) := by
  rw [eulerIter_succ, eulerBody_snaps, eulerIter_stepIdx]
  by_cases h : cfg.timeRate ≤ (eulerIter m cfg sine twoPi u0 k).tDisplay ∨
      k = 0
  · rw [if_pos h]
    simp [h]
  · rw [if_neg h]
    simp [h]

/-- A rungeKutta snapshot is emitted at iteration k exactly when the
guard of the snapshot check holds there. -/
theorem emitsAt_iff_rk (m : Mesh α) (cfg : Config α) (sine : α → α)
    (twoPi : α) (u0 : Fin 4 → Nat → α) (k : Nat) :
    ((rkIter m cfg sine twoPi u0 (k + 1)).snaps.length =
        (rkIter m cfg sine twoPi u0 k).snaps.length + 1) ↔
      (cfg.timeRate ≤ (rkIter m cfg sine twoPi u0 k).tDisplay ∨ k = 0) := by
  rw [rkIter_succ, rkBody_snaps, rkIter_stepIdx]
  by_cases h : cfg.timeRate ≤ (rkIter m cfg sine twoPi u0 k).tDisplay ∨
      k = 0
  · rw [if_pos h]
    simp [h]
  · rw [if_neg h]
    simp [h]

/-- C4: in both integrators a snapshot is emitted at step 0 and
thereafter exactly when the display accumulator (incremented by timeStep
each iteration and reset to zero on every emission) has reached at least
timeRate; when timeRate = mm·timeStep with mm ≥ 1, snapshots occur
precisely at the steps divisible by mm, i.e. 0, mm, 2·mm, .... -/
theorem claim_C4 (m : Mesh α) (cfg : Config α) (sine : α → α) (twoPi : α)
    (u0 : Fin 4 → Nat → α) (mm k : Nat) (hdt : 0 < cfg.timeStep)
    (hmm : 1 ≤ mm) (hR : cfg.timeRate = (mm : α) * cfg.timeStep) :
    (((eulerIter m cfg sine twoPi u0 (k + 1)).snaps.length =
        (eulerIter m cfg sine twoPi u0 k).snaps.length + 1) ↔
      (k = 0 ∨ cfg.timeRate ≤ (eulerIter m cfg sine twoPi u0 k).tDisplay)) ∧
    (((eulerIter m cfg sine twoPi u0 (k + 1)).snaps.length =
        (eulerIter m cfg sine twoPi u0 k).snaps.length + 1) ↔ mm ∣ k) ∧
    (((rkIter m cfg sine twoPi u0 (k + 1)).snaps.length =
        (rkIter m cfg sine twoPi u0 k).snaps.length + 1) ↔
      (k = 0 ∨ cfg.timeRate ≤ (rkIter m cfg sine twoPi u0 k).tDisplay)) ∧
    (((rkIter m cfg sine twoPi u0 (k + 1)).snaps.length =
        (rkIter m cfg sine twoPi u0 k).snaps.length + 1) ↔ mm ∣ k) := by
  have hcadE : (cfg.timeRate ≤ (eulerIter m cfg sine twoPi u0 k).tDisplay ∨
      (eulerIter m cfg sine twoPi u0 k).stepIdx = 0) ↔ mm ∣ k :=
    (cadence (eulerBody m cfg sine twoPi) cfg.timeRate cfg.timeStep
      (eulerBody_tDisplay m cfg sine twoPi) (eulerBody_stepIdx m cfg sine twoPi)
      (initState cfg u0) rfl rfl mm hmm hdt hR k).2
  have hcadR : (cfg.timeRate ≤ (rkIter m cfg sine twoPi u0 k).tDisplay ∨
      (rkIter m cfg sine twoPi u0 k).stepIdx = 0) ↔ mm ∣ k :=
    (cadence (rkBody m cfg sine twoPi) cfg.timeRate cfg.timeStep
      (rkBody_tDisplay m cfg sine twoPi) (rkBody_stepIdx m cfg sine twoPi)
      (initState cfg u0) rfl rfl mm hmm hdt hR k).2
  rw [eulerIter_stepIdx] at hcadE
  rw [rkIter_stepIdx] at hcadR
  refine ⟨?_, ?_, ?_, ?_⟩
  · rw [emitsAt_iff_euler]
    exact or_comm
  · rw [emitsAt_iff_euler]
    exact hcadE
  · rw [emitsAt_iff_rk]
    exact or_comm
  · rw [emitsAt_iff_rk]
    exact hcadR

/-- Witness for C4 at mm = 2, k = 2: both integrators emit a snapshot at
step 2 (and 2 divides 2). -/
theorem claim_C4_witness :
    (((eulerIter mesh1 cfgC4 (fun _ => 1) 1 (fun _ _ => 0) 3).snaps.length =
        (eulerIter mesh1 cfgC4 (fun _ => 1) 1 (fun _ _ => 0) 2).snaps.length
          + 1) ↔
      (2 = 0 ∨ cfgC4.timeRate ≤
        (eulerIter mesh1 cfgC4 (fun _ => 1) 1 (fun _ _ => 0) 2).tDisplay)) ∧
    (((eulerIter mesh1 cfgC4 (fun _ => 1) 1 (fun _ _ => 0) 3).snaps.length =
        (eulerIter mesh1 cfgC4 (fun _ => 1) 1 (fun _ _ => 0) 2).snaps.length
          + 1) ↔ 2 ∣ 2) ∧
    (((rkIter mesh1 cfgC4 (fun _ => 1) 1 (fun _ _ => 0) 3).snaps.length =
        (rkIter mesh1 cfgC4 (fun _ => 1) 1 (fun _ _ => 0) 2).snaps.length
          + 1) ↔
      (2 = 0 ∨ cfgC4.timeRate ≤
        (rkIter mesh1 cfgC4 (fun _ => 1) 1 (fun _ _ => 0) 2).tDisplay)) ∧
    (((rkIter mesh1 cfgC4 (fun _ => 1) 1 (fun _ _ => 0) 3).snaps.length =
        (rkIter mesh1 cfgC4 (fun _ => 1) 1 (fun _ _ => 0) 2).snaps.length
          + 1) ↔ 2 ∣ 2) :=
  claim_C4 mesh1 cfgC4 (fun _ => 1) 1 (fun _ _ => 0) 2 2
    (by norm_num [cfgC4, cfg1]) (by norm_num)
    (by norm_num [cfgC4, cfg1])

/-- C10: with timeStep > 0 and timeStart ≤ timeEnd, the loop guard
t ≤ timeEnd of both integrators holds exactly at the iterations
k < floor((timeEnd − timeStart)/timeStep) + 1, so each time loop
terminates after exactly that many body executions; if
timeStart > timeEnd the guard already fails at iteration 0 and the body
never runs. -/
theorem claim_C10 [FloorRing α] (m : Mesh α) (cfg : Config α)
    (sine : α → α) (twoPi : α) (u0 : Fin 4 → Nat → α)
    (hdt : 0 < cfg.timeStep) :
    (cfg.timeStart ≤ cfg.timeEnd → ∀ k : Nat,
      (((eulerIter m cfg sine twoPi u0 k).t ≤ cfg.timeEnd ∧
        (rkIter m cfg sine twoPi u0 k).t ≤ cfg.timeEnd) ↔
        k < (Int.floor
          ((cfg.timeEnd - cfg.timeStart) / cfg.timeStep)).toNat + 1)) ∧
    (cfg.timeEnd < cfg.timeStart →
      ¬ (eulerIter m cfg sine twoPi u0 0).t ≤ cfg.timeEnd ∧
      ¬ (rkIter m cfg sine twoPi u0 0).t ≤ cfg.timeEnd) := by
  constructor
  · intro hle k
    rw [eulerIter_t, rkIter_t, and_self]
    have hD : (0 : α) ≤ (cfg.timeEnd - cfg.timeStart) / cfg.timeStep :=
      div_nonneg (sub_nonneg.mpr hle) hdt.le
    have hfl : (0 : ℤ) ≤
        Int.floor ((cfg.timeEnd - cfg.timeStart) / cfg.timeStep) :=
      Int.floor_nonneg.mpr hD
    constructor
    · intro h
      have h1 : (k : α) ≤ (cfg.timeEnd - cfg.timeStart) / cfg.timeStep := by
        rw [le_div_iff₀ hdt]
        linarith
      have h2 : (k : ℤ) ≤
          Int.floor ((cfg.timeEnd - cfg.timeStart) / cfg.timeStep) :=
        Int.le_floor.mpr (by exact_mod_cast h1)
      omega
    · intro h
      have h2 : (k : ℤ) ≤
          Int.floor ((cfg.timeEnd - cfg.timeStart) / cfg.timeStep) := by
        omega
      have h1 : (k : α) ≤ (cfg.timeEnd - cfg.timeStart) / cfg.timeStep := by
        have h3 := Int.le_floor.mp h2
        exact_mod_cast h3
      rw [le_div_iff₀ hdt] at h1
      linarith
  · intro hlt
    constructor
    · rw [eulerIter_t, not_le]
      push_cast
      linarith
    · rw [rkIter_t, not_le]
      push_cast
      linarith

/-- Witness for C10 on the concrete configuration with timeStart = 0,
timeEnd = 1, timeStep = 1/3 (four loop iterations), at k = 2. -/
theorem claim_C10_witness :
    ((eulerIter mesh1 cfgC10 (fun _ => 1) 1 (fun _ _ => 0) 2).t ≤
        cfgC10.timeEnd ∧
      (rkIter mesh1 cfgC10 (fun _ => 1) 1 (fun _ _ => 0) 2).t ≤
        cfgC10.timeEnd) ↔
      2 < (Int.floor
        ((cfgC10.timeEnd - cfgC10.timeStart) / cfgC10.timeStep)).toNat + 1 :=
  (claim_C10 mesh1 cfgC10 (fun _ => 1) 1 (fun _ _ => 0)
    (by norm_num [cfgC10, cfg1])).1 (by norm_num [cfgC10, cfg1]) 2

/-- The origin node lies inside the concrete source region of `src1`. -/
theorem zero_mem_src1 : 0 ∈ srcIndices mesh1 src1 :=
  (srcIndices_mem mesh1 src1 0).mpr
    ⟨by norm_num [mesh1], by norm_num [mesh1, src1]⟩

/-- Every iteration time of the concrete run stays below the duration of
`src1`. -/
theorem cfg1_dur (j : Nat) (hj : j < 2) :
    cfg1.timeStart + (j : ℚ) * cfg1.timeStep < src1.duration := by
  interval_cases j <;> norm_num [cfg1, src1]

/-- The snapshot list of the concrete forwardEuler run after one
iteration: exactly the step-0 snapshot of the zero state. -/
theorem eulerIter1_snaps_c :
    (eulerIter mesh1 cfg1 (fun x => x) 1 (fun _ _ => 0) 1).snaps =
      [mkSnap mesh1 cfg1 0 0 fun _ _ => 0] := by
  rw [show (1 : Nat) = 0 + 1 from rfl, eulerIter_succ, eulerBody_snaps]
  rw [if_pos (Or.inr (eulerIter_stepIdx mesh1 cfg1 (fun x => x) 1
    (fun _ _ => 0) 0))]
  rfl

/-- The display accumulator of the concrete forwardEuler run after one
iteration equals the time step 1/4. -/
theorem eulerIter1_tDisplay_c :
    (eulerIter mesh1 cfg1 (fun x => x) 1 (fun _ _ => 0) 1).tDisplay =
      1 / 4 := by
  rw [show (1 : Nat) = 0 + 1 from rfl, eulerIter_succ, eulerBody_tDisplay]
  norm_num [eulerIter, initState, cfg1]

/-- The snapshot list of the concrete forwardEuler run after two
iterations: the step-0 snapshot and the step-1 snapshot of the
state after one iteration. -/
theorem eulerIter2_snaps_c :
    (eulerIter mesh1 cfg1 (fun x => x) 1 (fun _ _ => 0) 2).snaps =
      [mkSnap mesh1 cfg1 0 0 fun _ _ => 0,
       mkSnap mesh1 cfg1 1
         (eulerIter mesh1 cfg1 (fun x => x) 1 (fun _ _ => 0) 1).t
         (eulerIter mesh1 cfg1 (fun x => x) 1 (fun _ _ => 0) 1).u] := by
  rw [show (2 : Nat) = 1 + 1 from rfl, eulerIter_succ, eulerBody_snaps,
    eulerIter_stepIdx]
  rw [if_pos (Or.inl (by rw [eulerIter1_tDisplay_c]; norm_num [cfg1]))]
  rw [eulerIter1_snaps_c]
  rfl

/-- The pressure of the concrete forwardEuler run at the source node
after one iteration: the value injected at time 0, namely sine(0) = 0
for the model sine = id. -/
theorem eulerIter1_u_c :
    (eulerIter mesh1 cfg1 (fun x => x) 1 (fun _ _ => 0) 1).u 0 0 = 0 := by
  rw [euler_scenario_u mesh1 cfg1 (fun x => x) 1 src1 rfl rfl rfl rfl
    (fun _ _ j h => h j) (fun _ _ _ _ => rfl) (fun _ _ _ _ _ => rfl)
    2 cfg1_dur 1 (by omega) 0 0]
  show (if (0 : Fin 4) = 0 ∧ 0 ∈ srcIndices mesh1 src1 then
    (fun x => x) (1 * (cfg1.timeStart + ((0 : Nat) : ℚ) * cfg1.timeStep))
    else 0) = 0
  rw [if_pos ⟨rfl, zero_mem_src1⟩]
  norm_num [cfg1]

/-- Counterexample for C5 as stated: in the concrete single-source
scenario (amp 1, freq 1, phase 0, dt = 1/4, model sine = id, twoPi = 1)
the snapshot of step 1 carries time 1/4 but records at the source node
the pressure injected at the previous iteration's time 0, namely
sine(0) = 0, which differs from the claimed sine(twoPi·t) = 1/4: the
snapshot fires before that iteration's injection, so the recorded value
lags one step. -/
theorem claim_C5_counterexample :
    0 ∈ srcIndices mesh1 src1 ∧
    ((eulerIter mesh1 cfg1 (fun x => x) 1 (fun _ _ => 0) 2).snaps.getD 1
      snapJunk).time = 1 / 4 ∧
    ((eulerIter mesh1 cfg1 (fun x => x) 1 (fun _ _ => 0) 2).snaps.getD 1
        snapJunk).g_p 0 0 ≠
      (fun x => x)
        (1 * ((eulerIter mesh1 cfg1 (fun x => x) 1 (fun _ _ => 0) 2).snaps.getD
          1 snapJunk).time) := by
  have hgetD : (eulerIter mesh1 cfg1 (fun x => x) 1
      (fun _ _ => 0) 2).snaps.getD 1 snapJunk =
      mkSnap mesh1 cfg1 1
        (eulerIter mesh1 cfg1 (fun x => x) 1 (fun _ _ => 0) 1).t
        (eulerIter mesh1 cfg1 (fun x => x) 1 (fun _ _ => 0) 1).u := by
    rw [eulerIter2_snaps_c]
    rfl
  have ht1 : (eulerIter mesh1 cfg1 (fun x => x) 1 (fun _ _ => 0) 1).t =
      1 / 4 := by
    rw [eulerIter_t]
    norm_num [cfg1]
  refine ⟨zero_mem_src1, ?_, ?_⟩
  · rw [hgetD]
    show (eulerIter mesh1 cfg1 (fun x => x) 1 (fun _ _ => 0) 1).t = 1 / 4
    exact ht1
  · rw [hgetD]
    show (eulerIter mesh1 cfg1 (fun x => x) 1 (fun _ _ => 0) 1).u 0
        (0 * mesh1.elNumNodes + 0) ≠
      (fun x => x)
        (1 * (eulerIter mesh1 cfg1 (fun x => x) 1 (fun _ _ => 0) 1).t)
    rw [ht1]
    show (eulerIter mesh1 cfg1 (fun x => x) 1 (fun _ _ => 0) 1).u 0 0 ≠
      (1 : ℚ) * (1 / 4)
    rw [eulerIter1_u_c]
    norm_num

/-- C5 (amended): in the single-source scenario (amplitude 1, frequency
1, phase 0, duration covering the run, zero initial state, zero
stiffness and flux, mass solve sending the zero residual to zero), the
pressure recorded at a source node by the snapshot of step j equals the
initial value 0 for j = 0 and sin(2π·t_prev) for j ≥ 1, where
t_prev = timeStart + (j−1)·timeStep is the PREVIOUS iteration's time
(the snapshot of an iteration fires before that iteration's injection),
and this value is the same whichever integrator produced the
snapshot. -/
theorem claim_C5 (m : Mesh α) (cfg : Config α) (sine : α → α) (twoPi : α)
    (s : Source α) (n0 : Nat)
    (hsrc : cfg.sources = [s]) (hamp : s.amp = 1) (hfreq : s.freq = 1)
    (hphase : s.phase = 0)
    (hNN : m.numNodes = m.elNum * m.elNumNodes)
    (hM : ∀ el (f : Nat → α) j, (∀ i, f i = 0) → m.elMassInv el f j = 0)
    (hS : ∀ el Fq g j, m.elStiffVec el Fq g j = 0)
    (hF : ∀ (eq : Fin 4) g Fq el j, m.elFluxVec eq g Fq el j = 0)
    (hn0 : n0 ∈ srcIndices m s)
    (K : Nat) (hdur : ∀ j : Nat, j < K →
      cfg.timeStart + (j : α) * cfg.timeStep < s.duration)
    (k : Nat) (hk : k ≤ K) (sn : Snap α)
    (hsn : sn ∈ (eulerIter m cfg sine twoPi (fun _ _ => 0) k).snaps ∨
      sn ∈ (rkIter m cfg sine twoPi (fun _ _ => 0) k).snaps) :
    sn.g_p (n0 / m.elNumNodes) (n0 % m.elNumNodes) =
      if sn.stepIdx = 0 then 0
      else sine (twoPi *
        (cfg.timeStart + ((sn.stepIdx - 1 : Nat) : α) * cfg.timeStep)) := by
  rcases hsn with hsn | hsn
  · obtain ⟨j, hjk, rfl⟩ :=
      eulerIter_snaps_mem m cfg sine twoPi (fun _ _ => 0) k sn hsn
    show (eulerIter m cfg sine twoPi (fun _ _ => 0) j).u 0
        (n0 / m.elNumNodes * m.elNumNodes + n0 % m.elNumNodes) =
      if j = 0 then 0
      else sine (twoPi *
        (cfg.timeStart + ((j - 1 : Nat) : α) * cfg.timeStep))
    rw [Nat.div_add_mod' n0 m.elNumNodes]
    rw [euler_scenario_u m cfg sine twoPi s hsrc hamp hfreq hphase hM hS hF
      K hdur j (by omega) 0 n0]
    cases j with
    | zero => rfl
    | succ j2 =>
      show (if (0 : Fin 4) = 0 ∧ n0 ∈ srcIndices m s then
        sine (twoPi * (cfg.timeStart + (j2 : α) * cfg.timeStep)) else 0) = _
      rw [if_pos ⟨rfl, hn0⟩, if_neg (Nat.succ_ne_zero j2),
        Nat.succ_sub_one]
  · obtain ⟨j, hjk, rfl⟩ :=
      rkIter_snaps_mem m cfg sine twoPi (fun _ _ => 0) k sn hsn
    show (rkIter m cfg sine twoPi (fun _ _ => 0) j).u 0
        (n0 / m.elNumNodes * m.elNumNodes + n0 % m.elNumNodes) =
      if j = 0 then 0
      else sine (twoPi *
        (cfg.timeStart + ((j - 1 : Nat) : α) * cfg.timeStep))
    rw [Nat.div_add_mod' n0 m.elNumNodes]
    rw [rk_scenario_u m cfg sine twoPi s hsrc hamp hfreq hphase hNN hM hS
      hF K hdur j (by omega) 0 n0]
    cases j with
    | zero => rfl
    | succ j2 =>
      show (if (0 : Fin 4) = 0 ∧ n0 ∈ srcIndices m s then
        sine (twoPi * (cfg.timeStart + (j2 : α) * cfg.timeStep)) else 0) = _
      rw [if_pos ⟨rfl, hn0⟩, if_neg (Nat.succ_ne_zero j2),
        Nat.succ_sub_one]

/-- Witness for the amended C5: the step-0 snapshot of the concrete
forwardEuler run records pressure 0 at the source node. -/
theorem claim_C5_witness :
    (mkSnap mesh1 cfg1 0 0 fun _ _ => (0 : ℚ)).g_p
        (0 / mesh1.elNumNodes) (0 % mesh1.elNumNodes) =
      if (mkSnap mesh1 cfg1 0 0 fun _ _ => (0 : ℚ)).stepIdx = 0 then 0
      else (fun x => x) (1 *
        (cfg1.timeStart +
          (((mkSnap mesh1 cfg1 0 0 fun _ _ => (0 : ℚ)).stepIdx - 1 : Nat) :
            ℚ) * cfg1.timeStep)) :=
  claim_C5 mesh1 cfg1 (fun x => x) 1 src1 0 rfl rfl rfl rfl (by decide)
    (fun _ _ j h => h j) (fun _ _ _ _ => rfl) (fun _ _ _ _ _ => rfl)
    zero_mem_src1 2 cfg1_dur 1 (by omega)
    (mkSnap mesh1 cfg1 0 0 fun _ _ => (0 : ℚ))
    (Or.inl (by
      rw [eulerIter1_snaps_c]
      exact List.mem_singleton.mpr rfl))

end Solver
